import Mathlib

/-!
# Verification of the Noodle email-knowledge pipeline

A shallow embedding of the Noodle storage layer: the SQLite schema of the
initial migration (tables `emails`, `attachments`, `extracted_email_facts`,
`entities`, `entity_mentions`, `edges`, `prompts`, `periodic_runs`, the
`emails_fts` FTS5 table and its `emails_ai` / `emails_ad` / `emails_au`
triggers), the project-health refactor migration, and the record-store /
entity-resolver / fact-persister / graph-builder operations described in the
design document.  Tables are embedded as lists of row records; SQL uniqueness
constraints become `Pairwise` invariants proved over all reachable states.
-/

namespace Noodle

/-- A row of the `emails` table (initial migration).  `DATETIME` columns are
embedded as `Nat` timestamps, `REAL` as `ℚ`, nullable columns as `Option`. -/
structure EmailRow where
  id : Nat
  store_id : String
  entry_id : String
  conversation_id : Option String
  folder : String
  subject : String
  sender : String
  «to» : String
  cc : Option String
  bcc : Option String
  sent_at : Nat
  received_at : Nat
  body_text : String
  body_html : Option String
  importance : Int
  categories : Option String
  flags : Option Int
  internet_message_id : Option String
  last_indexed_at : Nat
  hash : String
  excluded_reason : Option String
  deriving DecidableEq

/-- A row of the `attachments` table. -/
structure AttachmentRow where
  id : Nat
  email_id : Nat
  filename : String
  mime : String
  size_bytes : Nat
  extracted_text : Option String
  hash : String
  deriving DecidableEq

/-- A row of the `extracted_email_facts` table in the shape created by the
project-health refactor migration (the current schema).  JSON-valued `TEXT`
columns are embedded as plain strings, exactly as stored. -/
structure ExtractedFactsRow where
  email_id : Nat
  primary_type : String
  intent : String
  urgency : String
  sentiment : String
  client_or_project_json : String
  due_by : Option Nat
  needs_response : Bool
  waiting_on : String
  summary : String
  key_points_json : String
  risks_json : String
  issues_json : String
  blockers_json : String
  open_questions_json : String
  answered_questions_json : String
  confidence : ℚ
  provenance_json : String
  created_at : Nat
  deriving DecidableEq

/-- A row of the `extracted_email_facts` table in the shape created by the
initial migration (the schema that the project-health migration drops). -/
structure OldExtractedFactsRow where
  email_id : Nat
  email_type : String
  project : String
  sentiment : String
  urgency : String
  summary : String
  key_points_json : String
  action_items_json : String
  decisions_json : String
  risks_json : String
  deadlines_json : String
  needs_response : Bool
  suggested_labels_json : String
  confidence : ℚ
  provenance_json : String
  created_at : Nat
  deriving DecidableEq

/-- A row of the `entities` table. -/
structure EntityRow where
  id : Nat
  entity_type : String
  canonical_name : String
  normalized_key : String
  created_at : Nat
  deriving DecidableEq

/-- A row of the `entity_mentions` table. -/
structure EntityMentionRow where
  id : Nat
  email_id : Nat
  entity_id : Nat
  role : String
  confidence : ℚ
  deriving DecidableEq

/-- A row of the `edges` table. -/
structure EdgeRow where
  id : Nat
  src_entity_id : Nat
  dst_entity_id : Nat
  edge_type : String
  email_id : Nat
  created_at : Nat
  deriving DecidableEq

/-- A row of the `prompts` table (`id` is a `TEXT` UUID primary key). -/
structure PromptRow where
  id : String
  name : String
  kind : String
  enabled : Bool
  schedule_cron : Option String
  scope_json : String
  model_pref_json : String
  prompt_template : String
  json_schema : Option String
  created_at : Nat
  updated_at : Nat
  deriving DecidableEq

/-- A row of the `periodic_runs` table. -/
structure PeriodicRunRow where
  id : Nat
  prompt_id : String
  run_at : Nat
  status : String
  output_json : Option String
  output_text : Option String
  error_text : Option String
  deriving DecidableEq

/-- A row of the `emails_fts` FTS5 virtual table.  The table declares the five
columns `subject`, `body_text`, `summary`, `entities`, `project`; a column not
supplied by an inserting trigger is `NULL`, embedded as `none`. -/
structure FtsRow where
  rowid : Nat
  subject : String
  body_text : String
  summary : Option String
  entities : Option String
  project : Option String
  deriving DecidableEq

/-- The database state, parametrised by the shape of the
`extracted_email_facts` rows so that both sides of the project-health
migration share the remaining tables. -/
structure StoreOf (F : Type) where
  emails : List EmailRow
  attachments : List AttachmentRow
  extracted_email_facts : List F
  entities : List EntityRow
  entity_mentions : List EntityMentionRow
  edges : List EdgeRow
  prompts : List PromptRow
  periodic_runs : List PeriodicRunRow
  emails_fts : List FtsRow

/-- The database state under the current (post-refactor) facts schema. -/
abbrev Store := StoreOf ExtractedFactsRow

/-- The database state under the initial facts schema. -/
abbrev StoreV1 := StoreOf OldExtractedFactsRow

/-- The empty database, as created by running the migrations on a fresh file. -/
def initStore : Store :=
  { emails := [], attachments := [], extracted_email_facts := [], entities := [],
    entity_mentions := [], edges := [], prompts := [], periodic_runs := [],
    emails_fts := [] }

/-! ## FTS triggers (`emails_ai`, `emails_ad`, `emails_au`)

The triggers populate only the `subject` and `body_text` columns of
`emails_fts`; `summary`, `entities` and `project` are never written. -/

/-- The index record built by the `emails_ai` trigger (and by the re-insert
half of `emails_au`): `INSERT INTO emails_fts(rowid, subject, body_text)
VALUES (new.id, new.subject, new.body_text)`. -/
def mkFtsRow (e : EmailRow) : FtsRow :=
  { rowid := e.id, subject := e.subject, body_text := e.body_text,
    summary := none, entities := none, project := none }

/-! ## Record Store -/

/-- The connector payload for one raw email: every `emails` column except the
autoincrement `id`, the ingestion-time `last_indexed_at` and the
policy-managed `excluded_reason`. -/
structure RawEmail where
  store_id : String
  entry_id : String
  conversation_id : Option String
  folder : String
  subject : String
  sender : String
  «to» : String
  cc : Option String
  bcc : Option String
  sent_at : Nat
  received_at : Nat
  body_text : String
  body_html : Option String
  importance : Int
  categories : Option String
  flags : Option Int
  internet_message_id : Option String
  hash : String
  deriving DecidableEq

/-- Largest element of a list of naturals (0 for the empty list); used to
model SQLite `AUTOINCREMENT` id assignment. -/
def natMax (l : List Nat) : Nat := l.foldr max 0

/-- The id SQLite assigns to the next inserted `emails` row. -/
def nextEmailId (s : Store) : Nat := natMax (s.emails.map EmailRow.id) + 1

/-- The id assigned to the next inserted `entities` row. -/
def nextEntityId (s : Store) : Nat := natMax (s.entities.map EntityRow.id) + 1

/-- The id assigned to the next inserted `entity_mentions` row. -/
def nextMentionId (s : Store) : Nat :=
  natMax (s.entity_mentions.map EntityMentionRow.id) + 1

/-- The id assigned to the next inserted `edges` row. -/
def nextEdgeId (s : Store) : Nat := natMax (s.edges.map EdgeRow.id) + 1

/-- The id assigned to the next inserted `periodic_runs` row. -/
def nextRunId (s : Store) : Nat := natMax (s.periodic_runs.map PeriodicRunRow.id) + 1

/-- Lookup on the dedup key: the `UNIQUE(store_id, entry_id)` constraint of
the `emails` table. -/
def findEmailByKey (s : Store) (raw : RawEmail) : Option EmailRow :=
  s.emails.find? (fun e => e.store_id == raw.store_id && e.entry_id == raw.entry_id)

/-- A fresh `emails` row built from a connector payload. -/
def newEmailFromRaw (i : Nat) (raw : RawEmail) (now : Nat) : EmailRow :=
  { id := i, store_id := raw.store_id, entry_id := raw.entry_id,
    conversation_id := raw.conversation_id, folder := raw.folder,
    subject := raw.subject, sender := raw.sender, «to» := raw.«to», cc := raw.cc,
    bcc := raw.bcc, sent_at := raw.sent_at, received_at := raw.received_at,
    body_text := raw.body_text, body_html := raw.body_html,
    importance := raw.importance, categories := raw.categories,
    flags := raw.flags, internet_message_id := raw.internet_message_id,
    last_indexed_at := now, hash := raw.hash, excluded_reason := none }

/-- The in-place content update of an existing `emails` row (`UPDATE` keeps
the row id; the dedup key of the payload equals the row's own key). -/
def overwriteFromRaw (e : EmailRow) (raw : RawEmail) (now : Nat) : EmailRow :=
  { id := e.id, store_id := raw.store_id, entry_id := raw.entry_id,
    conversation_id := raw.conversation_id, folder := raw.folder,
    subject := raw.subject, sender := raw.sender, «to» := raw.«to», cc := raw.cc,
    bcc := raw.bcc, sent_at := raw.sent_at, received_at := raw.received_at,
    body_text := raw.body_text, body_html := raw.body_html,
    importance := raw.importance, categories := raw.categories,
    flags := raw.flags, internet_message_id := raw.internet_message_id,
    last_indexed_at := now, hash := raw.hash,
    excluded_reason := e.excluded_reason }

/-- Result of `upsertEmail`: the row id, whether a new row was created, and
whether the stored content hash differed (a reprocess is warranted). -/
structure UpsertResult where
  id : Nat
  isNew : Bool
  hashChanged : Bool
  store : Store

/-- Modelled from the spec: §4.1 Record Store, `upsertEmail(raw) ->
(EmailId, isNew)`.  The Rust repository implementation is not under `src/`;
only its schema (migration `part_001`) is.  Identity is the
`(store_id, entry_id)` unique key; an unchanged hash performs no write; a
changed hash updates the row in place, which fires the `emails_au` trigger
(delete-then-insert on `emails_fts`); a missing key inserts a fresh row,
which fires the `emails_ai` trigger. -/
def upsertEmail (s : Store) (raw : RawEmail) (now : Nat) : UpsertResult :=
  match findEmailByKey s raw with
  | some e =>
    if e.hash == raw.hash then
      { id := e.id, isNew := false, hashChanged := false, store := s }
    else
      let e2 := overwriteFromRaw e raw now
      { id := e.id, isNew := false, hashChanged := true,
        store := { s with
          emails := s.emails.filter (fun x => x.id != e.id) ++ [e2],
          emails_fts := s.emails_fts.filter (fun r => r.rowid != e.id) ++ [mkFtsRow e2] } }
  | none =>
    let i := nextEmailId s
    let e2 := newEmailFromRaw i raw now
    { id := i, isNew := true, hashChanged := false,
      store := { s with
        emails := s.emails ++ [e2],
        emails_fts := s.emails_fts ++ [mkFtsRow e2] } }

/-- `DELETE FROM emails WHERE id = i`.  When a row is deleted, the
`ON DELETE CASCADE` foreign keys remove the email's attachments, facts,
mentions and edges, and the `emails_ad` trigger removes its `emails_fts`
record; `entities` and `prompts` have no foreign key on emails and are
untouched.  When no row matches, nothing fires. -/
def deleteEmail (s : Store) (i : Nat) : Store :=
  if s.emails.any (fun e => e.id == i) then
    { s with
      emails := s.emails.filter (fun e => e.id != i),
      attachments := s.attachments.filter (fun a => a.email_id != i),
      extracted_email_facts := s.extracted_email_facts.filter (fun f => f.email_id != i),
      entity_mentions := s.entity_mentions.filter (fun m => m.email_id != i),
      edges := s.edges.filter (fun g => g.email_id != i),
      emails_fts := s.emails_fts.filter (fun r => r.rowid != i) }
  else s

/-! ## Entity Resolver -/

/-- Split a character list into its whitespace-separated words (the
accumulator holds the current word reversed). -/
def wordsAux : List Char → List Char → List (List Char)
  | [], acc => if acc.isEmpty then [] else [acc.reverse]
  | c :: cs, acc =>
    if c.isWhitespace then
      if acc.isEmpty then wordsAux cs [] else acc.reverse :: wordsAux cs []
    else wordsAux cs (c :: acc)

/-- Modelled from the spec: §4.2 Entity Resolver name normalization
(case-fold, trim, collapse whitespace); the Rust implementation is not under
`src/`.  Lower-case every character, then rejoin the whitespace-separated
words with single spaces, which both trims and collapses whitespace.  The
spec's "strip honorifics/punctuation per a fixed rule set" is modelled with
the empty rule set, which the claims do not exercise. -/
def normalizeName (s : String) : String :=
  String.mk (List.intercalate [' '] (wordsAux (s.data.map Char.toLower) []))

/-- Modelled from the spec: `normalizedKey = f(entityType, normalizedName)`,
with the concrete shape `"type|name"` taken from the spec's §8 example key
`"project|project noodle"`. -/
def makeNormalizedKey (entityType rawName : String) : String :=
  entityType ++ "|" ++ normalizeName rawName

/-- Result of `resolve`: the canonical entity id and the updated store. -/
structure ResolveResult where
  id : Nat
  store : Store

/-- The `entities` row created by the entity-creating branch of `resolve`. -/
def mkEntityRow (i : Nat) (entityType rawName : String) (now : Nat) : EntityRow :=
  { id := i, entity_type := entityType, canonical_name := rawName,
    normalized_key := makeNormalizedKey entityType rawName, created_at := now }

/-- The store after the entity-creating branch of `resolve`. -/
def storeAfterNewEntity (s : Store) (entityType rawName : String) (now : Nat) : Store :=
  { s with entities := s.entities ++
      [mkEntityRow (nextEntityId s) entityType rawName now] }

/-- Modelled from the spec: §4.2 `resolve(rawName, entityType) -> EntityId`;
the Rust implementation is not under `src/`, only the `entities` table with
its `normalized_key UNIQUE` constraint.  Look up by normalized key; if
absent, create a new Entity with `canonical_name = rawName` (first-seen
casing wins). -/
def resolve (s : Store) (rawName entityType : String) (now : Nat) : ResolveResult :=
  match s.entities.find?
      (fun e => e.normalized_key == makeNormalizedKey entityType rawName) with
  | some e => { id := e.id, store := s }
  | none =>
    { id := nextEntityId s, store := storeAfterNewEntity s entityType rawName now }

/-! ## Fact Persister -/

/-- The AI extraction payload persisted for one email: every column of the
post-refactor `extracted_email_facts` table except the key `email_id` and the
write-time `created_at`. -/
structure FactsPayload where
  primary_type : String
  intent : String
  urgency : String
  sentiment : String
  client_or_project_json : String
  due_by : Option Nat
  needs_response : Bool
  waiting_on : String
  summary : String
  key_points_json : String
  risks_json : String
  issues_json : String
  blockers_json : String
  open_questions_json : String
  answered_questions_json : String
  confidence : ℚ
  provenance_json : String
  deriving DecidableEq

/-- Modelled from the spec: §4.3 payload validation (enumerations within the
allowed value sets, confidence in [0,1]); the allowed sets are the column
comments of the project-health migration (`part_002`). -/
def validatePayload (p : FactsPayload) : Bool :=
  ["Update", "Request", "Decision", "FYI"].contains p.primary_type &&
  ["Inform", "Ask", "Escalate", "Commit", "Clarify", "Resolve"].contains p.intent &&
  ["Low", "Medium", "High"].contains p.urgency &&
  ["Neutral", "Positive", "Concerned", "Hostile"].contains p.sentiment &&
  ["me", "them", "third_party", "none"].contains p.waiting_on &&
  decide (0 ≤ p.confidence) && decide (p.confidence ≤ 1)

/-- The `extracted_email_facts` row written for a validated payload. -/
def mkFactsRow (emailId : Nat) (p : FactsPayload) (now : Nat) : ExtractedFactsRow :=
  { email_id := emailId, primary_type := p.primary_type, intent := p.intent,
    urgency := p.urgency, sentiment := p.sentiment,
    client_or_project_json := p.client_or_project_json, due_by := p.due_by,
    needs_response := p.needs_response, waiting_on := p.waiting_on,
    summary := p.summary, key_points_json := p.key_points_json,
    risks_json := p.risks_json, issues_json := p.issues_json,
    blockers_json := p.blockers_json,
    open_questions_json := p.open_questions_json,
    answered_questions_json := p.answered_questions_json,
    confidence := p.confidence, provenance_json := p.provenance_json,
    created_at := now }

/-- Modelled from the spec: §4.3 `persist(EmailId, ExtractedFactsPayload) ->
Result`; the Rust implementation is not under `src/`, only the table with its
`email_id INTEGER PRIMARY KEY` 1:1 key.  A validation failure or a dangling
email id (foreign-key violation) leaves prior facts untouched; a successful
persist replaces any prior row for the email (upsert on the 1:1 key). -/
def persistFacts (s : Store) (emailId : Nat) (p : FactsPayload) (now : Nat) :
    Except String Store :=
  if validatePayload p then
    if s.emails.any (fun e => e.id == emailId) then
      Except.ok { s with extracted_email_facts :=
        s.extracted_email_facts.filter (fun r => r.email_id != emailId) ++
          [mkFactsRow emailId p now] }
    else Except.error "foreign key violation: no such email"
  else Except.error "validation failed"

/-! ## Graph Builder -/

/-- One extracted entity handed to the Graph Builder:
`(rawName, type, role, confidence)`. -/
structure ExtractedEntity where
  rawName : String
  entityType : String
  role : String
  confidence : ℚ
  deriving DecidableEq

/-- One extracted relation handed to the Graph Builder:
`(rawSrc, rawDst, relType)` with the entity types of the two endpoints. -/
structure ExtractedRelation where
  rawSrc : String
  srcType : String
  rawDst : String
  dstType : String
  relType : String
  deriving DecidableEq

/-- Modelled from the spec: §4.4, the EntityMention upsert for
`(EmailId, EntityId, role)` — if a mention for that (email, entity) pair
already exists from a prior extraction run, its role/confidence are updated
rather than duplicated.  The Rust implementation is not under `src/`. -/
def upsertMention (s : Store) (emailId entityId : Nat) (role : String)
    (conf : ℚ) : Store :=
  match s.entity_mentions.find?
      (fun m => m.email_id == emailId && m.entity_id == entityId) with
  | some m =>
    { s with entity_mentions :=
        (s.entity_mentions.filter
          (fun x => !(x.email_id == emailId && x.entity_id == entityId))) ++
        [{ id := m.id, email_id := emailId, entity_id := entityId,
           role := role, confidence := conf }] }
  | none =>
    { s with entity_mentions := s.entity_mentions ++
        [{ id := nextMentionId s, email_id := emailId, entity_id := entityId,
           role := role, confidence := conf }] }

/-- A new edge attributed to the evidencing email; edges are never
deduplicated against prior edges. -/
def insertEdge (s : Store) (srcId dstId : Nat) (edgeType : String)
    (emailId now : Nat) : Store :=
  { s with edges := s.edges ++
      [{ id := nextEdgeId s, src_entity_id := srcId, dst_entity_id := dstId,
         edge_type := edgeType, email_id := emailId, created_at := now }] }

/-- Modelled from the spec: §4.4, re-running extraction for the same email
first removes that email's previously created mentions/edges. -/
def clearGraphFor (s : Store) (emailId : Nat) : Store :=
  { s with
    entity_mentions := s.entity_mentions.filter (fun m => m.email_id != emailId),
    edges := s.edges.filter (fun g => g.email_id != emailId) }

/-- Resolve one extracted entity and upsert its mention. -/
def applyGraphEntity (s : Store) (emailId now : Nat) (x : ExtractedEntity) : Store :=
  let r := resolve s x.rawName x.entityType now
  upsertMention r.store emailId r.id x.role x.confidence

/-- Resolve both endpoints of one extracted relation and insert a new edge. -/
def applyGraphRelation (s : Store) (emailId now : Nat) (x : ExtractedRelation) : Store :=
  let r1 := resolve s x.rawSrc x.srcType now
  let r2 := resolve r1.store x.rawDst x.dstType now
  insertEdge r2.store r1.id r2.id x.relType emailId now

/-- Modelled from the spec: §4.4 `apply(EmailId, extractedEntities,
extractedRelations)`; the Rust implementation is not under `src/`.  Clears
the email's prior mentions/edges, then applies each extracted entity and
relation in order. -/
def applyGraph (s : Store) (emailId : Nat) (ents : List ExtractedEntity)
    (rels : List ExtractedRelation) (now : Nat) : Store :=
  let s1 := (clearGraphFor s emailId)
  let s2 := ents.foldl (fun t x => applyGraphEntity t emailId now x) s1
  rels.foldl (fun t x => applyGraphRelation t emailId now x) s2

/-! ## Prompts and runs -/

/-- `INSERT INTO prompts` under the `TEXT PRIMARY KEY` on `id`: a duplicate
key aborts the statement, leaving the store unchanged. -/
def insertPrompt (s : Store) (p : PromptRow) : Store :=
  if s.prompts.any (fun q => q.id == p.id) then s
  else { s with prompts := s.prompts ++ [p] }

/-- `DELETE FROM prompts WHERE id = pid`.  When a row is deleted, the
`ON DELETE CASCADE` foreign key of `periodic_runs` removes every run
referencing it. -/
def deletePrompt (s : Store) (pid : String) : Store :=
  if s.prompts.any (fun p => p.id == pid) then
    { s with
      prompts := s.prompts.filter (fun p => p.id != pid),
      periodic_runs := s.periodic_runs.filter (fun r => r.prompt_id != pid) }
  else s

/-- `INSERT INTO periodic_runs` with an autoincrement id. -/
def insertRun (s : Store) (pid : String) (runAt : Nat) (status : String) : Store :=
  { s with periodic_runs := s.periodic_runs ++
      [{ id := nextRunId s, prompt_id := pid, run_at := runAt, status := status,
         output_json := none, output_text := none, error_text := none }] }

/-! ## The project-health refactor migration -/

/-- The project-health refactor migration (`part_002`): `DROP TABLE IF EXISTS
extracted_email_facts` followed by `CREATE TABLE extracted_email_facts` with
the new schema.  Every other table is untouched; the recreated facts table is
empty regardless of the dropped rows' content. -/
def migrationProjectHealth (s : StoreV1) : Store :=
  { emails := s.emails, attachments := s.attachments,
    extracted_email_facts := [], entities := s.entities,
    entity_mentions := s.entity_mentions, edges := s.edges,
    prompts := s.prompts, periodic_runs := s.periodic_runs,
    emails_fts := s.emails_fts }

/-! ## Search -/

/-- The ids returned by a full-text search whose query is an email's exact
subject text: the `emails_fts` rows whose `subject` column is that text. -/
def searchSubject (s : Store) (q : String) : List Nat :=
  (s.emails_fts.filter (fun r => r.subject == q)).map FtsRow.rowid

/-! ## Reachable states -/

/-- One mutation of the store, as issued by the components of §4. -/
inductive Op where
  | upsert (raw : RawEmail) (now : Nat)
  | purge (id : Nat)
  | resolveEntity (rawName entityType : String) (now : Nat)
  | persist (emailId : Nat) (p : FactsPayload) (now : Nat)
  | graphApply (emailId : Nat) (ents : List ExtractedEntity)
      (rels : List ExtractedRelation) (now : Nat)
  | promptInsert (p : PromptRow)
  | promptDelete (id : String)
  | runInsert (pid : String) (runAt : Nat) (status : String)

/-- Execute one operation; a failed `persist` leaves the store unchanged. -/
def applyOp (s : Store) : Op → Store
  | Op.upsert raw now => (upsertEmail s raw now).store
  | Op.purge i => deleteEmail s i
  | Op.resolveEntity n t now => (resolve s n t now).store
  | Op.persist i p now =>
    match persistFacts s i p now with
    | Except.ok s2 => s2
    | Except.error _ => s
  | Op.graphApply i ents rels now => applyGraph s i ents rels now
  | Op.promptInsert p => insertPrompt s p
  | Op.promptDelete i => deletePrompt s i
  | Op.runInsert pid runAt status => insertRun s pid runAt status

/-- The store reached by running a sequence of operations on a fresh file. -/
def runOps (ops : List Op) : Store := ops.foldl applyOp initStore

/-! ## Invariants -/

/-- No two `emails` rows share the `(store_id, entry_id)` dedup key
(the `UNIQUE(store_id, entry_id)` constraint). -/
def emailsKeyUnique (l : List EmailRow) : Prop :=
  l.Pairwise (fun a b => ¬(a.store_id = b.store_id ∧ a.entry_id = b.entry_id))

/-- No two `emails` rows share the primary key `id`. -/
def emailIdsUnique (l : List EmailRow) : Prop :=
  l.Pairwise (fun a b => a.id ≠ b.id)

/-- No two `entities` rows share `normalized_key` (the `UNIQUE` column). -/
def entitiesKeyUnique (l : List EntityRow) : Prop :=
  l.Pairwise (fun a b => a.normalized_key ≠ b.normalized_key)

/-- No two `entities` rows share the primary key `id`. -/
def entityIdsUnique (l : List EntityRow) : Prop :=
  l.Pairwise (fun a b => a.id ≠ b.id)

/-- No two `extracted_email_facts` rows share the primary key `email_id`. -/
def factsKeyUnique (l : List ExtractedFactsRow) : Prop :=
  l.Pairwise (fun a b => a.email_id ≠ b.email_id)

/-- No two `entity_mentions` rows link the same (email, entity) pair. -/
def mentionsPairUnique (l : List EntityMentionRow) : Prop :=
  l.Pairwise (fun a b => ¬(a.email_id = b.email_id ∧ a.entity_id = b.entity_id))

/-- The trigger-maintained index is in lock-step with the `emails` table:
every index record is the trigger-built record of some current email, and
every current email has its trigger-built record in the index. -/
def ftsSynced (s : Store) : Prop :=
  (∀ r ∈ s.emails_fts, ∃ e ∈ s.emails, r = mkFtsRow e) ∧
  (∀ e ∈ s.emails, mkFtsRow e ∈ s.emails_fts)

/-- All store invariants together. -/
def StoreInv (s : Store) : Prop :=
  emailsKeyUnique s.emails ∧ emailIdsUnique s.emails ∧
  entitiesKeyUnique s.entities ∧ entityIdsUnique s.entities ∧
  factsKeyUnique s.extracted_email_facts ∧
  mentionsPairUnique s.entity_mentions ∧ ftsSynced s

instance (s : Store) : Decidable (StoreInv s) := by
  unfold StoreInv emailsKeyUnique emailIdsUnique entitiesKeyUnique
    entityIdsUnique factsKeyUnique mentionsPairUnique ftsSynced
  exact inferInstance

/-! ## Generic helper lemmas -/

theorem le_natMax_of_mem {l : List Nat} {x : Nat} (h : x ∈ l) : x ≤ natMax l := by
  induction l with
  | nil => cases h
  | cons a t ih =>
    rcases List.mem_cons.mp h with rfl | h2
    · simp [natMax]
    · calc x ≤ natMax t := ih h2
        _ ≤ natMax (a :: t) := by simp [natMax]

/-- In a list where some element satisfies `p` and no two distinct positions
both satisfy `p`, the count of `p` is exactly one. -/
theorem countP_eq_one_of_pairwise {α : Type} (p : α → Bool) {l : List α}
    (hpw : l.Pairwise (fun a b => ¬(p a = true ∧ p b = true)))
    (hex : ∃ a ∈ l, p a = true) : l.countP p = 1 := by
  induction l with
  | nil => simp at hex
  | cons a t ih =>
    rcases List.pairwise_cons.mp hpw with ⟨hhead, htail⟩
    cases hpa : p a with
    | true =>
      have hz : t.countP p = 0 := by
        refine List.countP_eq_zero.mpr (fun b hb hpb => ?_)
        exact hhead b hb ⟨hpa, hpb⟩
      simp [List.countP_cons, hpa, hz]
    | false =>
      have hex2 : ∃ b ∈ t, p b = true := by
        rcases hex with ⟨b, hb, hpb⟩
        rcases List.mem_cons.mp hb with rfl | hbt
        · rw [hpa] at hpb; cases hpb
        · exact ⟨b, hbt, hpb⟩
      simp [List.countP_cons, hpa, ih htail hex2]

/-! ## Invariant preservation -/

theorem emailKey_symm : Symmetric
    (fun a b : EmailRow => ¬(a.store_id = b.store_id ∧ a.entry_id = b.entry_id)) := by
  intro a b h hc
  exact h ⟨hc.1.symm, hc.2.symm⟩

theorem storeInv_upsertEmail (s : Store) (raw : RawEmail) (now : Nat)
    (h : StoreInv s) : StoreInv (upsertEmail s raw now).store := by
  obtain ⟨hk, hi, hek, hei, hf, hm, hfts⟩ := h
  unfold upsertEmail
  cases hfind : findEmailByKey s raw with
  | some e =>
    have he_mem : e ∈ s.emails := List.mem_of_find?_eq_some hfind
    have he_pred := List.find?_some hfind
    have he_key : e.store_id = raw.store_id ∧ e.entry_id = raw.entry_id := by
      simpa using he_pred
    cases hh : e.hash == raw.hash with
    | true => simpa [hh] using ⟨hk, hi, hek, hei, hf, hm, hfts⟩
    | false =>
      simp only [hh, Bool.false_eq_true, if_false]
      refine ⟨?_, ?_, hek, hei, hf, hm, ?_, ?_⟩
      · rw [emailsKeyUnique, List.pairwise_append]
        refine ⟨hk.filter _, List.pairwise_singleton _ _, ?_⟩
        intro a ha b hb
        rcases List.mem_filter.mp ha with ⟨hamem, hane⟩
        have hane2 : a.id ≠ e.id := by simpa using hane
        rcases List.mem_singleton.mp hb with rfl
        intro hkey
        have hane3 : a ≠ e := fun hc => hane2 (congrArg EmailRow.id hc)
        have := List.Pairwise.forall emailKey_symm hk hamem he_mem hane3
        exact this ⟨hkey.1.trans he_key.1.symm, hkey.2.trans he_key.2.symm⟩
      · rw [emailIdsUnique, List.pairwise_append]
        refine ⟨hi.filter _, List.pairwise_singleton _ _, ?_⟩
        intro a ha b hb
        rcases List.mem_filter.mp ha with ⟨_, hane⟩
        rcases List.mem_singleton.mp hb with rfl
        simpa using hane
      · intro r hr
        rcases List.mem_append.mp hr with hrl | hrr
        · rcases List.mem_filter.mp hrl with ⟨hrmem, hrne⟩
          rcases hfts.1 r hrmem with ⟨em, hemmem, rfl⟩
          refine ⟨em, List.mem_append_left _ (List.mem_filter.mpr ⟨hemmem, ?_⟩), rfl⟩
          simpa [mkFtsRow] using hrne
        · rcases List.mem_singleton.mp hrr with rfl
          exact ⟨overwriteFromRaw e raw now,
            List.mem_append_right _ (List.mem_singleton.mpr rfl), rfl⟩
      · intro em hem
        rcases List.mem_append.mp hem with heml | hemr
        · rcases List.mem_filter.mp heml with ⟨hemmem, hemne⟩
          refine List.mem_append_left _ (List.mem_filter.mpr ⟨hfts.2 em hemmem, ?_⟩)
          simpa [mkFtsRow] using hemne
        · rcases List.mem_singleton.mp hemr with rfl
          exact List.mem_append_right _ (List.mem_singleton.mpr rfl)
  | none =>
    have habs := List.find?_eq_none.mp hfind
    simp only
    refine ⟨?_, ?_, hek, hei, hf, hm, ?_, ?_⟩
    · rw [emailsKeyUnique, List.pairwise_append]
      refine ⟨hk, List.pairwise_singleton _ _, ?_⟩
      intro a ha b hb
      rcases List.mem_singleton.mp hb with rfl
      intro hkey
      exact habs a ha (by simp [newEmailFromRaw] at hkey; simp [hkey.1, hkey.2])
    · rw [emailIdsUnique, List.pairwise_append]
      refine ⟨hi, List.pairwise_singleton _ _, ?_⟩
      intro a ha b hb
      rcases List.mem_singleton.mp hb with rfl
      have : a.id ≤ natMax (s.emails.map EmailRow.id) :=
        le_natMax_of_mem (List.mem_map_of_mem _ ha)
      simp only [newEmailFromRaw, nextEmailId]
      omega
    · intro r hr
      rcases List.mem_append.mp hr with hrl | hrr
      · rcases hfts.1 r hrl with ⟨em, hemmem, rfl⟩
        exact ⟨em, List.mem_append_left _ hemmem, rfl⟩
      · rcases List.mem_singleton.mp hrr with rfl
        exact ⟨newEmailFromRaw (nextEmailId s) raw now,
          List.mem_append_right _ (List.mem_singleton.mpr rfl), rfl⟩
    · intro em hem
      rcases List.mem_append.mp hem with heml | hemr
      · exact List.mem_append_left _ (hfts.2 em heml)
      · rcases List.mem_singleton.mp hemr with rfl
        exact List.mem_append_right _ (List.mem_singleton.mpr rfl)

theorem storeInv_deleteEmail (s : Store) (i : Nat) (h : StoreInv s) :
    StoreInv (deleteEmail s i) := by
  obtain ⟨hk, hi, hek, hei, hf, hm, hfts⟩ := h
  unfold deleteEmail
  by_cases hc : (s.emails.any (fun e => e.id == i)) = true
  · simp only [hc, if_true]
    refine ⟨hk.filter _, hi.filter _, hek, hei, hf.filter _, hm.filter _, ?_, ?_⟩
    · intro r hr
      rcases List.mem_filter.mp hr with ⟨hrmem, hrne⟩
      rcases hfts.1 r hrmem with ⟨em, hemmem, rfl⟩
      refine ⟨em, List.mem_filter.mpr ⟨hemmem, ?_⟩, rfl⟩
      simpa [mkFtsRow] using hrne
    · intro em hem
      rcases List.mem_filter.mp hem with ⟨hemmem, hemne⟩
      refine List.mem_filter.mpr ⟨hfts.2 em hemmem, ?_⟩
      simpa [mkFtsRow] using hemne
  · simp only [hc, if_false]
    exact ⟨hk, hi, hek, hei, hf, hm, hfts⟩

theorem storeInv_resolve (s : Store) (n t : String) (now : Nat)
    (h : StoreInv s) : StoreInv (resolve s n t now).store := by
  obtain ⟨hk, hi, hek, hei, hf, hm, hfts⟩ := h
  unfold resolve storeAfterNewEntity mkEntityRow
  cases hfind : s.entities.find?
      (fun e => e.normalized_key == makeNormalizedKey t n) with
  | some e => exact ⟨hk, hi, hek, hei, hf, hm, hfts⟩
  | none =>
    have habs := List.find?_eq_none.mp hfind
    refine ⟨hk, hi, ?_, ?_, hf, hm, hfts⟩
    · rw [entitiesKeyUnique, List.pairwise_append]
      refine ⟨hek, List.pairwise_singleton _ _, ?_⟩
      intro a ha b hb
      rcases List.mem_singleton.mp hb with rfl
      intro hkey
      exact habs a ha (by simp [hkey])
    · rw [entityIdsUnique, List.pairwise_append]
      refine ⟨hei, List.pairwise_singleton _ _, ?_⟩
      intro a ha b hb
      rcases List.mem_singleton.mp hb with rfl
      have : a.id ≤ natMax (s.entities.map EntityRow.id) :=
        le_natMax_of_mem (List.mem_map_of_mem _ ha)
      simp only [nextEntityId]
      omega

theorem storeInv_persistOk (s s2 : Store) (i : Nat) (p : FactsPayload) (now : Nat)
    (hok : persistFacts s i p now = Except.ok s2) (h : StoreInv s) : StoreInv s2 := by
  obtain ⟨hk, hi, hek, hei, hf, hm, hfts⟩ := h
  unfold persistFacts at hok
  by_cases hv : validatePayload p = true
  · by_cases hex : (s.emails.any (fun e => e.id == i)) = true
    · simp only [hv, hex, if_true] at hok
      cases hok
      refine ⟨hk, hi, hek, hei, ?_, hm, hfts⟩
      rw [factsKeyUnique, List.pairwise_append]
      refine ⟨hf.filter _, List.pairwise_singleton _ _, ?_⟩
      intro a ha b hb
      rcases List.mem_filter.mp ha with ⟨_, hane⟩
      rcases List.mem_singleton.mp hb with rfl
      simpa [mkFactsRow] using hane
    · simp [hv, hex] at hok
  · simp [hv] at hok

theorem storeInv_upsertMention (s : Store) (emailId entityId : Nat)
    (role : String) (conf : ℚ) (h : StoreInv s) :
    StoreInv (upsertMention s emailId entityId role conf) := by
  obtain ⟨hk, hi, hek, hei, hf, hm, hfts⟩ := h
  unfold upsertMention
  cases hfind : s.entity_mentions.find?
      (fun m => m.email_id == emailId && m.entity_id == entityId) with
  | some m =>
    refine ⟨hk, hi, hek, hei, hf, ?_, hfts⟩
    rw [mentionsPairUnique, List.pairwise_append]
    refine ⟨hm.filter _, List.pairwise_singleton _ _, ?_⟩
    intro a ha b hb
    rcases List.mem_filter.mp ha with ⟨_, hane⟩
    rcases List.mem_singleton.mp hb with rfl
    intro hkey
    simp [hkey.1, hkey.2] at hane
  | none =>
    have habs := List.find?_eq_none.mp hfind
    refine ⟨hk, hi, hek, hei, hf, ?_, hfts⟩
    rw [mentionsPairUnique, List.pairwise_append]
    refine ⟨hm, List.pairwise_singleton _ _, ?_⟩
    intro a ha b hb
    rcases List.mem_singleton.mp hb with rfl
    intro hkey
    exact habs a ha (by simp [hkey.1, hkey.2])

theorem storeInv_insertEdge (s : Store) (srcId dstId : Nat) (edgeType : String)
    (emailId now : Nat) (h : StoreInv s) :
    StoreInv (insertEdge s srcId dstId edgeType emailId now) := h

theorem storeInv_clearGraphFor (s : Store) (emailId : Nat) (h : StoreInv s) :
    StoreInv (clearGraphFor s emailId) := by
  obtain ⟨hk, hi, hek, hei, hf, hm, hfts⟩ := h
  exact ⟨hk, hi, hek, hei, hf, hm.filter _, hfts⟩

theorem storeInv_applyGraphEntity (s : Store) (emailId now : Nat)
    (x : ExtractedEntity) (h : StoreInv s) :
    StoreInv (applyGraphEntity s emailId now x) :=
  storeInv_upsertMention _ _ _ _ _ (storeInv_resolve s _ _ _ h)

theorem storeInv_applyGraphRelation (s : Store) (emailId now : Nat)
    (x : ExtractedRelation) (h : StoreInv s) :
    StoreInv (applyGraphRelation s emailId now x) :=
  storeInv_insertEdge _ _ _ _ _ _
    (storeInv_resolve _ _ _ _ (storeInv_resolve s _ _ _ h))

theorem storeInv_foldl {β : Type} (f : Store → β → Store)
    (hstep : ∀ t b, StoreInv t → StoreInv (f t b)) :
    ∀ (l : List β) (s : Store), StoreInv s → StoreInv (l.foldl f s) := by
  intro l
  induction l with
  | nil => intro s h; exact h
  | cons a t ih => intro s h; exact ih (f s a) (hstep s a h)

theorem storeInv_applyGraph (s : Store) (emailId : Nat)
    (ents : List ExtractedEntity) (rels : List ExtractedRelation) (now : Nat)
    (h : StoreInv s) : StoreInv (applyGraph s emailId ents rels now) := by
  unfold applyGraph
  refine storeInv_foldl _ (fun t b ht => storeInv_applyGraphRelation t _ _ _ ht) _ _ ?_
  refine storeInv_foldl _ (fun t b ht => storeInv_applyGraphEntity t _ _ _ ht) _ _ ?_
  exact storeInv_clearGraphFor s emailId h

theorem storeInv_insertPrompt (s : Store) (p : PromptRow) (h : StoreInv s) :
    StoreInv (insertPrompt s p) := by
  unfold insertPrompt
  by_cases hc : (s.prompts.any (fun q => q.id == p.id)) = true
  · simpa [hc] using h
  · simpa [hc] using h

theorem storeInv_deletePrompt (s : Store) (pid : String) (h : StoreInv s) :
    StoreInv (deletePrompt s pid) := by
  unfold deletePrompt
  by_cases hc : (s.prompts.any (fun p => p.id == pid)) = true
  · simpa [hc] using h
  · simpa [hc] using h

theorem storeInv_insertRun (s : Store) (pid : String) (runAt : Nat)
    (status : String) (h : StoreInv s) : StoreInv (insertRun s pid runAt status) := h

theorem storeInv_applyOp (s : Store) (op : Op) (h : StoreInv s) :
    StoreInv (applyOp s op) := by
  cases op with
  | upsert raw now => exact storeInv_upsertEmail s raw now h
  | purge i => exact storeInv_deleteEmail s i h
  | resolveEntity n t now => exact storeInv_resolve s n t now h
  | persist i p now =>
    simp only [applyOp]
    cases hr : persistFacts s i p now with
    | ok s2 => exact storeInv_persistOk s s2 i p now hr h
    | error e => exact h
  | graphApply i ents rels now => exact storeInv_applyGraph s i ents rels now h
  | promptInsert p => exact storeInv_insertPrompt s p h
  | promptDelete i => exact storeInv_deletePrompt s i h
  | runInsert pid runAt status => exact storeInv_insertRun s pid runAt status h

theorem storeInv_initStore : StoreInv initStore := by decide

theorem storeInv_runOps (ops : List Op) : StoreInv (runOps ops) := by
  unfold runOps
  exact storeInv_foldl applyOp storeInv_applyOp ops initStore storeInv_initStore

/-! ## Equation lemmas for the branching operations -/

theorem upsertEmail_insert (s : Store) (raw : RawEmail) (now : Nat)
    (h : findEmailByKey s raw = none) :
    upsertEmail s raw now =
      { id := nextEmailId s, isNew := true, hashChanged := false,
        store := { s with
          emails := s.emails ++ [newEmailFromRaw (nextEmailId s) raw now],
          emails_fts := s.emails_fts ++
            [mkFtsRow (newEmailFromRaw (nextEmailId s) raw now)] } } := by
  unfold upsertEmail
  rw [h]

theorem upsertEmail_unchanged (s : Store) (raw : RawEmail) (now : Nat)
    (e : EmailRow) (h : findEmailByKey s raw = some e) (hh : e.hash = raw.hash) :
    upsertEmail s raw now =
      { id := e.id, isNew := false, hashChanged := false, store := s } := by
  unfold upsertEmail
  rw [h]
  simp [hh]

theorem upsertEmail_changed (s : Store) (raw : RawEmail) (now : Nat)
    (e : EmailRow) (h : findEmailByKey s raw = some e) (hh : e.hash ≠ raw.hash) :
    upsertEmail s raw now =
      { id := e.id, isNew := false, hashChanged := true,
        store := { s with
          emails := (s.emails.filter (fun x => x.id != e.id)) ++
            [overwriteFromRaw e raw now],
          emails_fts := (s.emails_fts.filter (fun r => r.rowid != e.id)) ++
            [mkFtsRow (overwriteFromRaw e raw now)] } } := by
  unfold upsertEmail
  rw [h]
  simp [hh]

theorem resolve_found (s : Store) (n t : String) (now : Nat) (e : EntityRow)
    (h : s.entities.find?
      (fun x => x.normalized_key == makeNormalizedKey t n) = some e) :
    resolve s n t now = { id := e.id, store := s } := by
  unfold resolve
  rw [h]

theorem resolve_new (s : Store) (n t : String) (now : Nat)
    (h : s.entities.find?
      (fun x => x.normalized_key == makeNormalizedKey t n) = none) :
    resolve s n t now =
      { id := nextEntityId s, store := storeAfterNewEntity s t n now } := by
  unfold resolve
  rw [h]

theorem upsertMention_update (s : Store) (emailId entityId : Nat)
    (role : String) (conf : ℚ) (m : EntityMentionRow)
    (h : s.entity_mentions.find?
      (fun x => x.email_id == emailId && x.entity_id == entityId) = some m) :
    upsertMention s emailId entityId role conf =
      { s with entity_mentions :=
          (s.entity_mentions.filter
            (fun x => !(x.email_id == emailId && x.entity_id == entityId))) ++
          [{ id := m.id, email_id := emailId, entity_id := entityId,
             role := role, confidence := conf }] } := by
  unfold upsertMention
  rw [h]

/-! ## Concrete fixtures -/

/-- A sample connector payload. -/
def sampleRaw : RawEmail :=
  { store_id := "store-1", entry_id := "entry-1", conversation_id := none,
    folder := "Inbox", subject := "Quarterly sync", sender := "alice",
    «to» := "bob", cc := none, bcc := none, sent_at := 10, received_at := 11,
    body_text := "Agenda attached", body_html := none, importance := 1,
    categories := none, flags := none, internet_message_id := none,
    hash := "h1" }

/-- The same logical email re-synced with changed content. -/
def sampleRawChanged : RawEmail :=
  { sampleRaw with
    subject := "Quarterly sync v2"
    body_text := "Agenda updated"
    hash := "h2" }

/-- A valid extraction payload (all enumerations in their allowed sets,
confidence in [0,1]). -/
def samplePayload : FactsPayload :=
  { primary_type := "Update", intent := "Inform", urgency := "Low",
    sentiment := "Neutral", client_or_project_json := "null", due_by := none,
    needs_response := false, waiting_on := "none",
    summary := "Budget at risk", key_points_json := "[]", risks_json := "[]",
    issues_json := "[]", blockers_json := "[]", open_questions_json := "[]",
    answered_questions_json := "[]", confidence := 1,
    provenance_json := "null" }

/-- The store after ingesting `sampleRaw` into an empty database. -/
def sampleStore1 : Store := runOps [Op.upsert sampleRaw 0]

/-- The store after additionally persisting `samplePayload` for email 1. -/
def sampleStore2 : Store :=
  { sampleStore1 with extracted_email_facts := [mkFactsRow 1 samplePayload 5] }

/-- The `emails` row created for `sampleRaw`. -/
def sampleEmail : EmailRow := newEmailFromRaw 1 sampleRaw 0

/-- A sample `entities` row. -/
def sampleEntity : EntityRow :=
  { id := 1, entity_type := "project", canonical_name := "Project Noodle",
    normalized_key := makeNormalizedKey "project" "Project Noodle",
    created_at := 0 }

/-- A sample `prompts` row. -/
def samplePrompt : PromptRow :=
  { id := "p-1", name := "Weekly digest", kind := "scheduled", enabled := true,
    schedule_cron := some "0 9 * * MON", scope_json := "null",
    model_pref_json := "null", prompt_template := "Summarize",
    json_schema := none, created_at := 0, updated_at := 0 }

/-- A sample `attachments` row belonging to email 1. -/
def sampleAttachment : AttachmentRow :=
  { id := 1, email_id := 1, filename := "a.pdf", mime := "application/pdf",
    size_bytes := 10, extracted_text := none, hash := "ah" }

/-- A sample `entity_mentions` row linking email 1 and entity 1. -/
def sampleMention : EntityMentionRow :=
  { id := 1, email_id := 1, entity_id := 1, role := "subject-of",
    confidence := 1 }

/-- A sample `periodic_runs` row for prompt `"p-1"`. -/
def sampleRun : PeriodicRunRow :=
  { id := 1, prompt_id := "p-1", run_at := 3, status := "success",
    output_json := none, output_text := some "ok", error_text := none }

/-- A store populated with one row in every table that references email 1. -/
def sampleFullStore : Store :=
  { emails := [sampleEmail], attachments := [sampleAttachment],
    extracted_email_facts := [mkFactsRow 1 samplePayload 0],
    entities := [sampleEntity], entity_mentions := [sampleMention],
    edges := [], prompts := [samplePrompt], periodic_runs := [sampleRun],
    emails_fts := [mkFtsRow sampleEmail] }

/-! ## Claim C1 -/

/-- C1: in every reachable store state, no two `emails` rows share the
`(store_id, entry_id)` pair and no two `entities` rows share
`normalized_key`; and every operation preserves both constraints. -/
theorem noodle_C1_uniqueness :
    (∀ ops : List Op, emailsKeyUnique (runOps ops).emails ∧
      entitiesKeyUnique (runOps ops).entities) ∧
    (∀ (s : Store) (op : Op), StoreInv s →
      emailsKeyUnique (applyOp s op).emails ∧
      entitiesKeyUnique (applyOp s op).entities) := by
  constructor
  · intro ops
    obtain ⟨hk, _, hek, _⟩ := storeInv_runOps ops
    exact ⟨hk, hek⟩
  · intro s op h
    obtain ⟨hk, _, hek, _⟩ := storeInv_applyOp s op h
    exact ⟨hk, hek⟩

theorem noodle_C1_uniqueness_witness :
    StoreInv initStore ∧
    (emailsKeyUnique (applyOp initStore (Op.upsert sampleRaw 0)).emails ∧
     entitiesKeyUnique (applyOp initStore (Op.upsert sampleRaw 0)).entities) :=
  ⟨by decide, noodle_C1_uniqueness.2 initStore (Op.upsert sampleRaw 0) (by decide)⟩

/-! ## Claim C2 -/

/-- C2: at most one `extracted_email_facts` row per email in every reachable
state, and a completed `persist` leaves exactly one row for that email,
holding the newly persisted content. -/
theorem noodle_C2_facts_one_to_one :
    (∀ ops : List Op, factsKeyUnique (runOps ops).extracted_email_facts) ∧
    (∀ (s s2 : Store) (emailId : Nat) (p : FactsPayload) (now : Nat),
      persistFacts s emailId p now = Except.ok s2 →
        s2.extracted_email_facts.countP (fun r => r.email_id == emailId) = 1 ∧
        ∀ r ∈ s2.extracted_email_facts, r.email_id = emailId →
          r = mkFactsRow emailId p now) := by
  constructor
  · intro ops
    obtain ⟨_, _, _, _, hf, _⟩ := storeInv_runOps ops
    exact hf
  · intro s s2 emailId p now hok
    unfold persistFacts at hok
    by_cases hv : validatePayload p = true
    · by_cases hex : (s.emails.any (fun e => e.id == emailId)) = true
      · simp only [hv, hex, if_true] at hok
        cases hok
        constructor
        · rw [List.countP_append]
          have hz : (s.extracted_email_facts.filter
              (fun r => r.email_id != emailId)).countP
              (fun r => r.email_id == emailId) = 0 := by
            refine List.countP_eq_zero.mpr (fun a ha hpa => ?_)
            rcases List.mem_filter.mp ha with ⟨_, hane⟩
            simp at hane hpa
            exact hane hpa
          rw [hz]
          simp [List.countP_cons, mkFactsRow]
        · intro r hr hrid
          rcases List.mem_append.mp hr with hrl | hrr
          · rcases List.mem_filter.mp hrl with ⟨_, hane⟩
            simp [hrid] at hane
          · exact List.mem_singleton.mp hrr
      · simp [hv, hex] at hok
    · simp [hv] at hok

theorem noodle_C2_facts_one_to_one_witness :
    persistFacts sampleStore1 1 samplePayload 5 = Except.ok sampleStore2 ∧
    sampleStore2.extracted_email_facts.countP (fun r => r.email_id == 1) = 1 :=
  ⟨rfl, (noodle_C2_facts_one_to_one.2 sampleStore1 sampleStore2 1
    samplePayload 5 rfl).1⟩

/-! ## Claim C3 -/

/-- C3: deleting an existing email removes all of its attachments, its facts
row, its mentions, its edges and its search-index record, keeps every row of
those tables belonging to other emails, and leaves the `entities` table
unchanged. -/
theorem noodle_C3_cascade (s : Store) (i : Nat)
    (hex : s.emails.any (fun e => e.id == i) = true) :
    (∀ a ∈ (deleteEmail s i).attachments, a.email_id ≠ i) ∧
    (∀ f ∈ (deleteEmail s i).extracted_email_facts, f.email_id ≠ i) ∧
    (∀ m ∈ (deleteEmail s i).entity_mentions, m.email_id ≠ i) ∧
    (∀ g ∈ (deleteEmail s i).edges, g.email_id ≠ i) ∧
    (∀ r ∈ (deleteEmail s i).emails_fts, r.rowid ≠ i) ∧
    (∀ e ∈ (deleteEmail s i).emails, e.id ≠ i) ∧
    (deleteEmail s i).entities = s.entities ∧
    (∀ a ∈ s.attachments, a.email_id ≠ i → a ∈ (deleteEmail s i).attachments) ∧
    (∀ f ∈ s.extracted_email_facts, f.email_id ≠ i →
      f ∈ (deleteEmail s i).extracted_email_facts) ∧
    (∀ m ∈ s.entity_mentions, m.email_id ≠ i →
      m ∈ (deleteEmail s i).entity_mentions) ∧
    (∀ g ∈ s.edges, g.email_id ≠ i → g ∈ (deleteEmail s i).edges) := by
  unfold deleteEmail
  rw [if_pos hex]
  refine ⟨?_, ?_, ?_, ?_, ?_, ?_, rfl, ?_, ?_, ?_, ?_⟩
  · intro a ha; have := (List.mem_filter.mp ha).2; simpa using this
  · intro f hf; have := (List.mem_filter.mp hf).2; simpa using this
  · intro m hm; have := (List.mem_filter.mp hm).2; simpa using this
  · intro g hg; have := (List.mem_filter.mp hg).2; simpa using this
  · intro r hr; have := (List.mem_filter.mp hr).2; simpa using this
  · intro e he; have := (List.mem_filter.mp he).2; simpa using this
  · intro a ha hane; exact List.mem_filter.mpr ⟨ha, by simpa using hane⟩
  · intro f hf hfne; exact List.mem_filter.mpr ⟨hf, by simpa using hfne⟩
  · intro m hm hmne; exact List.mem_filter.mpr ⟨hm, by simpa using hmne⟩
  · intro g hg hgne; exact List.mem_filter.mpr ⟨hg, by simpa using hgne⟩

theorem noodle_C3_cascade_witness :
    sampleFullStore.emails.any (fun e => e.id == 1) = true ∧
    (deleteEmail sampleFullStore 1).entities = sampleFullStore.entities :=
  ⟨by decide, (noodle_C3_cascade sampleFullStore 1 (by decide)).2.2.2.2.2.2.1⟩

/-! ## Claim C9 -/

/-- C9: deleting an existing prompt removes every `periodic_runs` row that
references it (and only those), together with the prompt itself. -/
theorem noodle_C9_prompt_cascade (s : Store) (pid : String)
    (hex : s.prompts.any (fun p => p.id == pid) = true) :
    (∀ r ∈ (deletePrompt s pid).periodic_runs, r.prompt_id ≠ pid) ∧
    (∀ r ∈ s.periodic_runs, r.prompt_id ≠ pid →
      r ∈ (deletePrompt s pid).periodic_runs) ∧
    (∀ p ∈ (deletePrompt s pid).prompts, p.id ≠ pid) := by
  unfold deletePrompt
  rw [if_pos hex]
  refine ⟨?_, ?_, ?_⟩
  · intro r hr; have := (List.mem_filter.mp hr).2; simpa using this
  · intro r hr hrne; exact List.mem_filter.mpr ⟨hr, by simpa using hrne⟩
  · intro p hp; have := (List.mem_filter.mp hp).2; simpa using this

theorem noodle_C9_prompt_cascade_witness :
    sampleFullStore.prompts.any (fun p => p.id == "p-1") = true ∧
    (∀ r ∈ (deletePrompt sampleFullStore "p-1").periodic_runs,
      r.prompt_id ≠ "p-1") :=
  ⟨by decide, (noodle_C9_prompt_cascade sampleFullStore "p-1" (by decide)).1⟩

/-! ## Claim C10 -/

/-- C10: the project-health migration recreates `extracted_email_facts`
empty — every previously persisted facts row is discarded regardless of its
content — while the other tables are untouched. -/
theorem noodle_C10_migration_drops_facts (s : StoreV1) :
    (migrationProjectHealth s).extracted_email_facts = [] ∧
    (∀ r : ExtractedFactsRow,
      r ∉ (migrationProjectHealth s).extracted_email_facts) ∧
    (migrationProjectHealth s).emails = s.emails ∧
    (migrationProjectHealth s).entities = s.entities ∧
    (migrationProjectHealth s).periodic_runs = s.periodic_runs := by
  refine ⟨rfl, ?_, rfl, rfl, rfl⟩
  intro r hr
  cases hr

/-! ## Claim C4 -/

/-- C4: the index update path is delete-then-insert (the whole record is
rebuilt, never a partial field patch), so after an insert or content update a
search for the email's exact subject text returns its id and the index record
for that id mirrors the current email content exactly, and after a delete no
search returns the id. -/
theorem noodle_C4_index_sync :
    (∀ (s : Store) (raw : RawEmail) (now : Nat), StoreInv s →
      findEmailByKey s raw = none →
        (upsertEmail s raw now).id ∈
          searchSubject (upsertEmail s raw now).store raw.subject ∧
        ∀ r ∈ (upsertEmail s raw now).store.emails_fts,
          r.rowid = (upsertEmail s raw now).id →
            r = mkFtsRow (newEmailFromRaw (nextEmailId s) raw now)) ∧
    (∀ (s : Store) (raw : RawEmail) (now : Nat) (e : EmailRow),
      findEmailByKey s raw = some e → e.hash ≠ raw.hash →
        (upsertEmail s raw now).id ∈
          searchSubject (upsertEmail s raw now).store raw.subject ∧
        ∀ r ∈ (upsertEmail s raw now).store.emails_fts,
          r.rowid = (upsertEmail s raw now).id →
            r = mkFtsRow (overwriteFromRaw e raw now)) ∧
    (∀ (s : Store) (i : Nat) (q : String), StoreInv s →
      i ∉ searchSubject (deleteEmail s i) q) := by
  refine ⟨?_, ?_, ?_⟩
  · intro s raw now hinv hfind
    rw [upsertEmail_insert s raw now hfind]
    constructor
    · unfold searchSubject
      refine List.mem_map.mpr ⟨mkFtsRow (newEmailFromRaw (nextEmailId s) raw now),
        List.mem_filter.mpr
          ⟨List.mem_append_right _ (List.mem_singleton.mpr rfl), ?_⟩, rfl⟩
      simp [mkFtsRow, newEmailFromRaw]
    · intro r hr hrid
      rcases List.mem_append.mp hr with hrl | hrr
      · obtain ⟨_, _, _, _, _, _, hfts⟩ := hinv
        rcases hfts.1 r hrl with ⟨e0, he0, rfl⟩
        have hle : e0.id ≤ natMax (s.emails.map EmailRow.id) :=
          le_natMax_of_mem (List.mem_map_of_mem _ he0)
        have hid : e0.id = nextEmailId s := hrid
        rw [nextEmailId] at hid
        exfalso
        omega
      · exact List.mem_singleton.mp hrr
  · intro s raw now e hfind hne
    rw [upsertEmail_changed s raw now e hfind hne]
    constructor
    · unfold searchSubject
      refine List.mem_map.mpr ⟨mkFtsRow (overwriteFromRaw e raw now),
        List.mem_filter.mpr
          ⟨List.mem_append_right _ (List.mem_singleton.mpr rfl), ?_⟩, rfl⟩
      simp [mkFtsRow, overwriteFromRaw]
    · intro r hr hrid
      rcases List.mem_append.mp hr with hrl | hrr
      · have h2 := (List.mem_filter.mp hrl).2
        rw [hrid] at h2
        simp at h2
      · exact List.mem_singleton.mp hrr
  · intro s i q hinv hmem
    unfold deleteEmail at hmem
    by_cases hc : (s.emails.any (fun e => e.id == i)) = true
    · rw [if_pos hc] at hmem
      unfold searchSubject at hmem
      rcases List.mem_map.mp hmem with ⟨r, hrf, hrid⟩
      have hr2 := (List.mem_filter.mp hrf).1
      have h3 := (List.mem_filter.mp hr2).2
      rw [hrid] at h3
      simp at h3
    · rw [if_neg hc] at hmem
      unfold searchSubject at hmem
      rcases List.mem_map.mp hmem with ⟨r, hrf, hrid⟩
      have hr2 := (List.mem_filter.mp hrf).1
      obtain ⟨_, _, _, _, _, _, hfts⟩ := hinv
      rcases hfts.1 r hr2 with ⟨e0, he0, rfl⟩
      apply hc
      refine List.any_eq_true.mpr ⟨e0, he0, ?_⟩
      simp only [mkFtsRow] at hrid
      simp [hrid]

theorem noodle_C4_index_sync_witness :
    (StoreInv initStore ∧ findEmailByKey initStore sampleRaw = none ∧
      (upsertEmail initStore sampleRaw 0).id ∈
        searchSubject (upsertEmail initStore sampleRaw 0).store
          sampleRaw.subject) ∧
    (StoreInv sampleStore1 ∧
      1 ∉ searchSubject (deleteEmail sampleStore1 1) "Quarterly sync") :=
  ⟨⟨by decide, rfl,
      (noodle_C4_index_sync.1 initStore sampleRaw 0 (by decide) rfl).1⟩,
    ⟨by decide,
      noodle_C4_index_sync.2.2 sampleStore1 1 "Quarterly sync" (by decide)⟩⟩

/-! ## Claim C5 -/

/-- Stated from the spec's words, for comparison with the code (C5): for
every email for which extracted facts exist, the search-index record of that
email also carries the summary text derived from those facts. -/
def indexMirrorsFacts (s : Store) : Prop :=
  ∀ f ∈ s.extracted_email_facts, ∀ r ∈ s.emails_fts,
    r.rowid = f.email_id → r.summary = some f.summary

instance (s : Store) : Decidable (indexMirrorsFacts s) := by
  unfold indexMirrorsFacts
  exact inferInstance

/-- C5 counterexample: ingest one email and persist facts for it; the facts
row carries a summary, but the index record for that email (written by the
`emails_ai` trigger, which populates only `subject` and `body_text`) has
`summary = NULL`, so the index does not mirror the facts. -/
theorem noodle_C5_index_mirror_cex :
    ¬ indexMirrorsFacts
      (runOps [Op.upsert sampleRaw 0, Op.persist 1 samplePayload 5]) := by
  decide

/-- C5 amended: in every reachable state, every `emails_fts` record has
`NULL` in its `summary`, `entities` and `project` columns — the triggers
populate only `subject` and `body_text`, whether or not facts exist. -/
theorem noodle_C5_index_subject_body_only (ops : List Op) (r : FtsRow)
    (hr : r ∈ (runOps ops).emails_fts) :
    r.summary = none ∧ r.entities = none ∧ r.project = none := by
  obtain ⟨_, _, _, _, _, _, hfts⟩ := storeInv_runOps ops
  rcases hfts.1 r hr with ⟨e, _, rfl⟩
  exact ⟨rfl, rfl, rfl⟩

theorem noodle_C5_index_subject_body_only_witness :
    mkFtsRow sampleEmail ∈ (runOps [Op.upsert sampleRaw 0]).emails_fts ∧
    (mkFtsRow sampleEmail).summary = none :=
  ⟨List.mem_singleton.mpr rfl,
    (noodle_C5_index_subject_body_only [Op.upsert sampleRaw 0]
      (mkFtsRow sampleEmail) (List.mem_singleton.mpr rfl)).1⟩

/-! ## Claim C6 -/

theorem countP_key_of_keyUnique {l : List EmailRow} (hk : emailsKeyUnique l)
    {e : EmailRow} (he : e ∈ l) (raw : RawEmail)
    (hek : e.store_id = raw.store_id ∧ e.entry_id = raw.entry_id) :
    l.countP (fun x => x.store_id == raw.store_id &&
      x.entry_id == raw.entry_id) = 1 := by
  apply countP_eq_one_of_pairwise
  · apply List.Pairwise.imp ?_ hk
    intro a b hab hcon
    obtain ⟨hpa, hpb⟩ := hcon
    simp at hpa hpb
    exact hab ⟨hpa.1.trans hpb.1.symm, hpa.2.trans hpb.2.symm⟩
  · exact ⟨e, he, by simp [hek.1, hek.2]⟩

/-- C6: re-ingesting the same `(store_id, entry_id)` payload with an
unchanged hash returns the existing id with `isNew = false` and
`hashChanged = false` (so no further extraction is triggered), performs no
write, and the store holds exactly one email row with that dedup key. -/
theorem noodle_C6_upsert_idempotent (s : Store) (raw : RawEmail) (n1 n2 : Nat)
    (hk : emailsKeyUnique s.emails) :
    upsertEmail (upsertEmail s raw n1).store raw n2 =
      { id := (upsertEmail s raw n1).id, isNew := false, hashChanged := false,
        store := (upsertEmail s raw n1).store } ∧
    (upsertEmail s raw n1).store.emails.countP
      (fun x => x.store_id == raw.store_id &&
        x.entry_id == raw.entry_id) = 1 := by
  cases hfind : findEmailByKey s raw with
  | none =>
    have h1 := upsertEmail_insert s raw n1 hfind
    have hfind2 : findEmailByKey { s with
        emails := s.emails ++ [newEmailFromRaw (nextEmailId s) raw n1],
        emails_fts := s.emails_fts ++
          [mkFtsRow (newEmailFromRaw (nextEmailId s) raw n1)] } raw
        = some (newEmailFromRaw (nextEmailId s) raw n1) := by
      show (s.emails ++ [newEmailFromRaw (nextEmailId s) raw n1]).find?
          (fun e => e.store_id == raw.store_id && e.entry_id == raw.entry_id)
          = some (newEmailFromRaw (nextEmailId s) raw n1)
      rw [List.find?_append]
      have hz : s.emails.find? (fun e => e.store_id == raw.store_id &&
          e.entry_id == raw.entry_id) = none := hfind
      rw [hz]
      simp [newEmailFromRaw]
    constructor
    · rw [h1]
      exact upsertEmail_unchanged _ raw n2
        (newEmailFromRaw (nextEmailId s) raw n1) hfind2 rfl
    · rw [h1]
      show (s.emails ++ [newEmailFromRaw (nextEmailId s) raw n1]).countP
          (fun x => x.store_id == raw.store_id &&
            x.entry_id == raw.entry_id) = 1
      rw [List.countP_append]
      have hz : s.emails.countP (fun x => x.store_id == raw.store_id &&
          x.entry_id == raw.entry_id) = 0 :=
        List.countP_eq_zero.mpr (fun a ha => List.find?_eq_none.mp hfind a ha)
      rw [hz]
      simp [newEmailFromRaw, List.countP_cons]
  | some e =>
    have he_mem := List.mem_of_find?_eq_some hfind
    have he_key : e.store_id = raw.store_id ∧ e.entry_id = raw.entry_id := by
      simpa using List.find?_some hfind
    by_cases hh : e.hash = raw.hash
    · have h1 := upsertEmail_unchanged s raw n1 e hfind hh
      constructor
      · rw [h1]
        exact upsertEmail_unchanged s raw n2 e hfind hh
      · rw [h1]
        exact countP_key_of_keyUnique hk he_mem raw he_key
    · have h1 := upsertEmail_changed s raw n1 e hfind hh
      have hnomatch : ∀ b ∈ s.emails.filter (fun x => x.id != e.id),
          ¬((b.store_id == raw.store_id && b.entry_id == raw.entry_id) = true) := by
        intro b hb hpb
        rcases List.mem_filter.mp hb with ⟨hbmem, hbne⟩
        have hbne2 : b ≠ e := by
          intro hc
          rw [hc] at hbne
          simp at hbne
        have hbkey : b.store_id = raw.store_id ∧ b.entry_id = raw.entry_id := by
          simpa using hpb
        exact List.Pairwise.forall emailKey_symm hk hbmem he_mem hbne2
          ⟨hbkey.1.trans he_key.1.symm, hbkey.2.trans he_key.2.symm⟩
      have hfind2 : findEmailByKey { s with
          emails := (s.emails.filter (fun x => x.id != e.id)) ++
            [overwriteFromRaw e raw n1],
          emails_fts := (s.emails_fts.filter (fun r => r.rowid != e.id)) ++
            [mkFtsRow (overwriteFromRaw e raw n1)] } raw
          = some (overwriteFromRaw e raw n1) := by
        show ((s.emails.filter (fun x => x.id != e.id)) ++
            [overwriteFromRaw e raw n1]).find?
            (fun x => x.store_id == raw.store_id && x.entry_id == raw.entry_id)
            = some (overwriteFromRaw e raw n1)
        rw [List.find?_append]
        have hz : (s.emails.filter (fun x => x.id != e.id)).find?
            (fun x => x.store_id == raw.store_id &&
              x.entry_id == raw.entry_id) = none :=
          List.find?_eq_none.mpr hnomatch
        rw [hz]
        simp [overwriteFromRaw]
      constructor
      · rw [h1]
        exact upsertEmail_unchanged _ raw n2 (overwriteFromRaw e raw n1) hfind2 rfl
      · rw [h1]
        show ((s.emails.filter (fun x => x.id != e.id)) ++
            [overwriteFromRaw e raw n1]).countP
            (fun x => x.store_id == raw.store_id &&
              x.entry_id == raw.entry_id) = 1
        rw [List.countP_append]
        have hz : (s.emails.filter (fun x => x.id != e.id)).countP
            (fun x => x.store_id == raw.store_id &&
              x.entry_id == raw.entry_id) = 0 :=
          List.countP_eq_zero.mpr hnomatch
        rw [hz]
        simp [overwriteFromRaw, List.countP_cons]

theorem noodle_C6_upsert_idempotent_witness :
    emailsKeyUnique initStore.emails ∧
    (upsertEmail (upsertEmail initStore sampleRaw 0).store sampleRaw 7).isNew
      = false :=
  ⟨storeInv_initStore.1,
    congrArg UpsertResult.isNew
      (noodle_C6_upsert_idempotent initStore sampleRaw 0 7
        storeInv_initStore.1).1⟩

/-! ## Claim C7 -/

theorem append_pipe_ne : ∀ (l1 l2 x1 x2 : List Char), '|' ∉ l1 → '|' ∉ l2 →
    l1 ≠ l2 → l1 ++ '|' :: x1 ≠ l2 ++ '|' :: x2 := by
  intro l1
  induction l1 with
  | nil =>
    intro l2 x1 x2 h1 h2 hne
    cases l2 with
    | nil => exact absurd rfl hne
    | cons b t2 =>
      intro hc
      simp only [List.nil_append, List.cons_append] at hc
      obtain ⟨hb, _⟩ := List.cons.injEq .. ▸ hc
      exact h2 (List.mem_cons.mpr (Or.inl hb))
  | cons a t1 ih =>
    intro l2 x1 x2 h1 h2 hne
    cases l2 with
    | nil =>
      intro hc
      simp only [List.cons_append, List.nil_append] at hc
      obtain ⟨ha, _⟩ := List.cons.injEq .. ▸ hc
      exact h1 (List.mem_cons.mpr (Or.inl ha.symm))
    | cons b t2 =>
      intro hc
      simp only [List.cons_append] at hc
      obtain ⟨hab, hrest⟩ := List.cons.injEq .. ▸ hc
      subst hab
      have ht : t1 ≠ t2 := fun hcc => hne (by rw [hcc])
      exact ih t2 x1 x2 (fun hm => h1 (List.mem_cons_of_mem _ hm))
        (fun hm => h2 (List.mem_cons_of_mem _ hm)) ht hrest

theorem makeNormalizedKey_data (t n : String) :
    (makeNormalizedKey t n).data = t.data ++ '|' :: (normalizeName n).data := by
  unfold makeNormalizedKey
  rw [String.data_append, String.data_append, List.append_assoc]
  rfl

/-- Entity types drawn from the fixed type vocabulary contain no `'|'`, so
the type segment of a normalized key is unambiguous: different types always
produce different keys, whatever the names. -/
theorem makeNormalizedKey_type_ne {t1 t2 : String} (n1 n2 : String)
    (h1 : '|' ∉ t1.data) (h2 : '|' ∉ t2.data) (hne : t1 ≠ t2) :
    makeNormalizedKey t1 n1 ≠ makeNormalizedKey t2 n2 := by
  intro hc
  have hd := congrArg String.data hc
  rw [makeNormalizedKey_data, makeNormalizedKey_data] at hd
  have hdne : t1.data ≠ t2.data := by
    intro hdd
    apply hne
    cases t1
    cases t2
    simp_all
  exact append_pipe_ne _ _ _ _ h1 h2 hdne hd

theorem entityId_symm : Symmetric (fun a b : EntityRow => a.id ≠ b.id) := by
  intro a b h hc
  exact h hc.symm

theorem entity_eq_of_mem_of_id {l : List EntityRow}
    (h : l.Pairwise (fun a b => a.id ≠ b.id)) {a b : EntityRow}
    (ha : a ∈ l) (hb : b ∈ l) (hid : a.id = b.id) : a = b := by
  by_contra hne
  exact List.Pairwise.forall entityId_symm h ha hb hne hid

/-- C7: resolving two raw names that normalize identically under the same
entity type converges to one entity id, with `canonical_name` taken from the
first-seen raw name; resolving under a different entity type yields a
distinct id, because the type is part of the normalized key. -/
theorem noodle_C7_resolver_convergence (s : Store) (n1 n2 t t2 : String)
    (now1 now2 now3 : Nat) (hinv : StoreInv s)
    (hnorm : normalizeName n1 = normalizeName n2)
    (habsent : s.entities.find?
      (fun x => x.normalized_key == makeNormalizedKey t n1) = none)
    (hne : t ≠ t2) (hp1 : '|' ∉ t.data) (hp2 : '|' ∉ t2.data) :
    resolve (resolve s n1 t now1).store n2 t now2 =
      { id := (resolve s n1 t now1).id, store := (resolve s n1 t now1).store } ∧
    (∃ e ∈ (resolve (resolve s n1 t now1).store n2 t now2).store.entities,
      e.id = (resolve s n1 t now1).id ∧ e.canonical_name = n1 ∧
      e.normalized_key = makeNormalizedKey t n1) ∧
    (resolve (resolve (resolve s n1 t now1).store n2 t now2).store
        n2 t2 now3).id ≠ (resolve s n1 t now1).id := by
  have hkeq : makeNormalizedKey t n2 = makeNormalizedKey t n1 := by
    unfold makeNormalizedKey
    rw [hnorm]
  have h1 := resolve_new s n1 t now1 habsent
  have hfindnone : s.entities.find?
      (fun x => x.normalized_key == makeNormalizedKey t n2) = none := by
    rw [hkeq]
    exact habsent
  have hfind2 : (storeAfterNewEntity s t n1 now1).entities.find?
      (fun x => x.normalized_key == makeNormalizedKey t n2)
      = some (mkEntityRow (nextEntityId s) t n1 now1) := by
    show (s.entities ++ [mkEntityRow (nextEntityId s) t n1 now1]).find?
        (fun x => x.normalized_key == makeNormalizedKey t n2)
        = some (mkEntityRow (nextEntityId s) t n1 now1)
    rw [List.find?_append, hfindnone]
    simp [hkeq, mkEntityRow]
  rw [h1]
  have hres2 :
      resolve
        ({ id := nextEntityId s, store := storeAfterNewEntity s t n1 now1 } :
          ResolveResult).store n2 t now2 =
        { id := nextEntityId s, store := storeAfterNewEntity s t n1 now1 } :=
    resolve_found _ n2 t now2 _ hfind2
  rw [hres2]
  have hEmem : mkEntityRow (nextEntityId s) t n1 now1 ∈
      (storeAfterNewEntity s t n1 now1).entities :=
    List.mem_append_right _ (List.mem_singleton.mpr rfl)
  refine ⟨rfl, ?_, ?_⟩
  · exact ⟨mkEntityRow (nextEntityId s) t n1 now1, hEmem, rfl, rfl, rfl⟩
  · intro hc
    have hc2 : (resolve (storeAfterNewEntity s t n1 now1) n2 t2 now3).id
        = nextEntityId s := hc
    have hkey3 : makeNormalizedKey t2 n2 ≠ makeNormalizedKey t n1 :=
      makeNormalizedKey_type_ne n2 n1 hp2 hp1 (Ne.symm hne)
    cases hfind3 : (storeAfterNewEntity s t n1 now1).entities.find?
        (fun x => x.normalized_key == makeNormalizedKey t2 n2) with
    | some e3 =>
      have hres3 :=
        resolve_found (storeAfterNewEntity s t n1 now1) n2 t2 now3 e3 hfind3
      rw [hres3] at hc2
      have hc3 : e3.id = nextEntityId s := hc2
      have he3mem := List.mem_of_find?_eq_some hfind3
      have he3key : e3.normalized_key = makeNormalizedKey t2 n2 := by
        simpa using List.find?_some hfind3
      have hids : entityIdsUnique (storeAfterNewEntity s t n1 now1).entities := by
        have h2 := (storeInv_resolve s n1 t now1 hinv).2.2.2.1
        rw [h1] at h2
        exact h2
      have heq := entity_eq_of_mem_of_id hids he3mem hEmem hc3
      rw [heq] at he3key
      have he3key2 : makeNormalizedKey t n1 = makeNormalizedKey t2 n2 := he3key
      exact hkey3 he3key2.symm
    | none =>
      have hres3 :=
        resolve_new (storeAfterNewEntity s t n1 now1) n2 t2 now3 hfind3
      rw [hres3] at hc2
      have hle : (mkEntityRow (nextEntityId s) t n1 now1).id ≤
          natMax ((storeAfterNewEntity s t n1 now1).entities.map EntityRow.id) :=
        le_natMax_of_mem (List.mem_map_of_mem _ hEmem)
      have hle2 : nextEntityId s ≤
          natMax ((storeAfterNewEntity s t n1 now1).entities.map EntityRow.id) :=
        hle
      have hc3 : natMax ((storeAfterNewEntity s t n1 now1).entities.map
          EntityRow.id) + 1 = nextEntityId s := hc2
      omega

theorem noodle_C7_resolver_convergence_witness :
    StoreInv initStore ∧
    normalizeName "Acme Corp" = normalizeName " ACME CORP " ∧
    initStore.entities.find? (fun x => x.normalized_key ==
      makeNormalizedKey "org" "Acme Corp") = none ∧
    ("org" : String) ≠ "project" ∧ '|' ∉ ("org" : String).data ∧
    '|' ∉ ("project" : String).data ∧
    (resolve (resolve initStore "Acme Corp" "org" 0).store
        " ACME CORP " "org" 1).id = (resolve initStore "Acme Corp" "org" 0).id :=
  ⟨by decide, by decide, rfl, by decide, by decide, by decide,
    congrArg ResolveResult.id
      (noodle_C7_resolver_convergence initStore "Acme Corp" " ACME CORP "
        "org" "project" 0 1 2 (by decide) (by decide) rfl (by decide)
        (by decide) (by decide)).1⟩

/-! ## Claim C8 -/

theorem countP_not_add_countP {α : Type} (p : α → Bool) (l : List α) :
    l.countP (fun a => !(p a)) + l.countP p = l.length := by
  induction l with
  | nil => rfl
  | cons a t ih =>
    cases hpa : p a <;> simp [List.countP_cons, hpa] <;> omega

/-- C8: in every reachable store state at most one `entity_mentions` row
exists per (email, entity) pair, and when the Graph Builder upsert meets a
pair that already has a mention it updates that row's role/confidence in
place — the mention count is unchanged and the pair now carries the new role
and confidence. -/
theorem noodle_C8_mention_upsert :
    (∀ ops : List Op, mentionsPairUnique (runOps ops).entity_mentions) ∧
    (∀ (s : Store) (emailId entityId : Nat) (role : String) (conf : ℚ),
      mentionsPairUnique s.entity_mentions →
      (∃ m ∈ s.entity_mentions, m.email_id = emailId ∧ m.entity_id = entityId) →
        (upsertMention s emailId entityId role conf).entity_mentions.length =
          s.entity_mentions.length ∧
        ∃ m2 ∈ (upsertMention s emailId entityId role conf).entity_mentions,
          m2.email_id = emailId ∧ m2.entity_id = entityId ∧ m2.role = role ∧
          m2.confidence = conf) := by
  constructor
  · intro ops
    obtain ⟨_, _, _, _, _, hm, _⟩ := storeInv_runOps ops
    exact hm
  · intro s emailId entityId role conf hm hex
    have hsome : (s.entity_mentions.find?
        (fun x => x.email_id == emailId && x.entity_id == entityId)).isSome := by
      rw [List.find?_isSome]
      rcases hex with ⟨m, hmm, hm1, hm2⟩
      exact ⟨m, hmm, by simp [hm1, hm2]⟩
    obtain ⟨m0, hfind⟩ := Option.isSome_iff_exists.mp hsome
    rw [upsertMention_update s emailId entityId role conf m0 hfind]
    constructor
    · rw [List.length_append]
      have hcount : s.entity_mentions.countP
          (fun x => x.email_id == emailId && x.entity_id == entityId) = 1 := by
        apply countP_eq_one_of_pairwise
        · apply List.Pairwise.imp ?_ hm
          intro a b hab hcon
          obtain ⟨hpa, hpb⟩ := hcon
          simp at hpa hpb
          exact hab ⟨hpa.1.trans hpb.1.symm, hpa.2.trans hpb.2.symm⟩
        · rcases hex with ⟨m, hmm, hm1, hm2⟩
          exact ⟨m, hmm, by simp [hm1, hm2]⟩
      have hflen : (s.entity_mentions.filter
          (fun x => !(x.email_id == emailId && x.entity_id == entityId))).length
          = s.entity_mentions.countP
            (fun x => !(x.email_id == emailId && x.entity_id == entityId)) :=
        (List.countP_eq_length_filter _ _).symm
      have hadd := countP_not_add_countP
        (fun x => x.email_id == emailId && x.entity_id == entityId)
        s.entity_mentions
      rw [hflen]
      simp only [List.length_singleton]
      omega
    · exact ⟨_, List.mem_append_right _ (List.mem_singleton.mpr rfl),
        rfl, rfl, rfl, rfl⟩

theorem noodle_C8_mention_upsert_witness :
    mentionsPairUnique sampleFullStore.entity_mentions ∧
    (∃ m ∈ sampleFullStore.entity_mentions,
      m.email_id = 1 ∧ m.entity_id = 1) ∧
    (upsertMention sampleFullStore 1 1 "sender" 0).entity_mentions.length =
      sampleFullStore.entity_mentions.length :=
  ⟨by unfold mentionsPairUnique; exact List.pairwise_singleton _ _,
   ⟨sampleMention, List.mem_singleton.mpr rfl, rfl, rfl⟩,
   (noodle_C8_mention_upsert.2 sampleFullStore 1 1 "sender" 0
      (by unfold mentionsPairUnique; exact List.pairwise_singleton _ _)
      ⟨sampleMention, List.mem_singleton.mpr rfl, rfl, rfl⟩).1⟩

end Noodle
